import Mathlib

/-!
# Verification of the black-hole-astrophysics repository

Shallow embedding of the algorithmic content of the repository:

* the RK4 orbit integrator and its conservation diagnostics from
  `notebooks/classical-orbits.ipynb`,
* the catalogue reader `read_txt_from_url` from
  `notebooks/gamma-ray-bursts.ipynb`,
* the environment-staging shell fragments from `conda/bh-set-variables`.

Python floats are modelled as real numbers (exact arithmetic); the
decimal literals of the source are captured exactly as rationals and
coerced into `ℝ` where the source computes with them.
-/

namespace Orbits

/-- The global variables of `classical-orbits.ipynb`, Step 2: the
physical parameters of the two-body system.  Each field holds the exact
value of the corresponding decimal literal of the source. -/
structure Params where
  ecc : ℚ
  grav : ℚ
  m1 : ℚ
  m2 : ℚ
  angmom : ℚ

/-- `MU = M1 * M2 / (M1 + M2)`, the reduced mass. -/
def MU (p : Params) : ℚ := p.m1 * p.m2 / (p.m1 + p.m2)

/-- `M = M1 + M2`, the total mass. -/
def M (p : Params) : ℚ := p.m1 + p.m2

/-- `RL = L**2 / (G * M * MU**2)`, the semi-latus rectum. -/
def RL (p : Params) : ℚ := p.angmom ^ 2 / (p.grav * M p * MU p ^ 2)

/-- `E = (MU**3 / 2) * (G*M / L)**2 * (ECC**2 - 1)`, the total energy. -/
def Etot (p : Params) : ℚ :=
  (MU p ^ 3 / 2) * (p.grav * M p / p.angmom) ^ 2 * (p.ecc ^ 2 - 1)

/-- The parameter values entered in the notebook: the orbit of Mercury
around the Sun (`ECC = 0.21`, `G = 6.67408e-11`, `M1 = MSUN = 1.989e30`,
`M2 = 3.285e23`, `L = 9e38`). -/
def mercury : Params :=
  { ecc := 0.21
    grav := 6.67408e-11
    m1 := 1.989e30
    m2 := 3.285e23
    angmom := 9e38 }

/-- A physically valid bound-orbit parameter set: `0 ≤ e < 1`, positive
masses, positive Newton constant and positive angular momentum. -/
def ValidParams (p : Params) : Prop :=
  0 ≤ p.ecc ∧ p.ecc < 1 ∧ 0 < p.angmom ∧ 0 < p.grav ∧ 0 < p.m1 ∧ 0 < p.m2

/-- `rhs(y)`: the right-hand side of the equation of motion,
`L * (1 + ECC * numpy.cos(y))**2 / (MU * RL**2)`. -/
noncomputable def rhs (p : Params) (y : ℝ) : ℝ :=
  (p.angmom : ℝ) * (1 + (p.ecc : ℝ) * Real.cos y) ^ 2 / ((MU p : ℝ) * (RL p : ℝ) ^ 2)

/-- `rk4(y, h)`: one step of the classical 4th-order Runge-Kutta method,
exactly as written in the notebook. -/
noncomputable def rk4 (p : Params) (y h : ℝ) : ℝ :=
  let k1 := h * rhs p y
  let k2 := h * rhs p (y + k1 / 2)
  let k3 := h * rhs p (y + k2 / 2)
  let k4 := h * rhs p (y + k3)
  y + (1 / 6) * (k1 + 2 * k2 + 2 * k3 + k4)

/-- `a = RL / (1 - ECC**2)`, the orbital semi-major axis. -/
def semiMajor (p : Params) : ℚ := RL p / (1 - p.ecc ^ 2)

/-- `T = numpy.sqrt(4 * PI**2 * a**3 / (G * M))`, the orbital period from
Kepler's third law. -/
noncomputable def period (p : Params) : ℝ :=
  Real.sqrt (4 * Real.pi ^ 2 * (semiMajor p : ℝ) ^ 3 / ((p.grav : ℝ) * (M p : ℝ)))

/-- `dt = T / 1e2`, the fixed step size (1% of the orbital period). -/
noncomputable def dt (p : Params) : ℝ := period p / 100

/-- The number of samples of `numpy.arange(start, stop, step)` for a
positive step: `⌈(stop - start) / step⌉`, clamped at zero. -/
noncomputable def arangeSize (start stop step : ℝ) : ℕ :=
  (⌈(stop - start) / step⌉).toNat

/-- `t = numpy.arange(0, T + dt, dt)`: the size of the time grid. -/
noncomputable def tsize (p : Params) : ℕ := arangeSize 0 (period p + dt p) (dt p)

/-- The iterated RK4 update: `phi = [0]`, then
`for i in range(t.size - 1): phi.append(rk4(phi[i], dt))`.
`phiFun p n` is the n-th entry of the resulting list. -/
noncomputable def phiFun (p : Params) : ℕ → ℝ
  | 0 => 0
  | n + 1 => rk4 p (phiFun p n) (dt p)

/-- The full simulated phase series, a list of length `t.size`. -/
noncomputable def phiSeries (p : Params) : List ℝ :=
  (List.range (tsize p)).map (phiFun p)

end Orbits

namespace Orbits

theorem MU_pos {p : Params} (hp : ValidParams p) : 0 < MU p := by
  obtain ⟨-, -, -, -, h1, h2⟩ := hp
  exact div_pos (mul_pos h1 h2) (add_pos h1 h2)

theorem M_pos {p : Params} (hp : ValidParams p) : 0 < M p :=
  add_pos hp.2.2.2.2.1 hp.2.2.2.2.2

theorem RL_pos {p : Params} (hp : ValidParams p) : 0 < RL p := by
  have hL := hp.2.2.1
  have hG := hp.2.2.2.1
  exact div_pos (pow_pos hL 2)
    (mul_pos (mul_pos hG (M_pos hp)) (pow_pos (MU_pos hp) 2))

theorem semiMajor_pos {p : Params} (hp : ValidParams p) : 0 < semiMajor p := by
  have he : p.ecc ^ 2 < 1 := by
    have h0 := hp.1
    have h1 := hp.2.1
    nlinarith
  exact div_pos (RL_pos hp) (by linarith)

theorem period_pos {p : Params} (hp : ValidParams p) : 0 < period p := by
  apply Real.sqrt_pos.mpr
  have hpi := Real.pi_pos
  have ha : (0 : ℝ) < (semiMajor p : ℝ) := by exact_mod_cast semiMajor_pos hp
  have hG : (0 : ℝ) < (p.grav : ℝ) := by exact_mod_cast hp.2.2.2.1
  have hM : (0 : ℝ) < (M p : ℝ) := by exact_mod_cast M_pos hp
  positivity

theorem dt_pos {p : Params} (hp : ValidParams p) : 0 < dt p := by
  have := period_pos hp
  unfold dt; linarith

/-- C2: for a valid bound-orbit parameter set the time grid has exactly
101 samples (N = 100 steps of size `T/100`), the simulation iterates the
RK4 update over the whole grid with no early termination, and the
resulting phase series has length exactly 101 with first element 0. -/
theorem phiSeries_length (p : Params) (hp : ValidParams p) :
    tsize p = 101 ∧ phiSeries p =
      (List.range 101).map (phiFun p) ∧
    (phiSeries p).length = 101 ∧ (phiSeries p).head? = some 0 := by
  have hdt := dt_pos hp
  have hT := period_pos hp
  have hsize : tsize p = 101 := by
    unfold tsize arangeSize
    have : (period p + dt p - 0) / dt p = 101 := by
      unfold dt
      field_simp
      ring
    rw [this, show (⌈(101 : ℝ)⌉ : ℤ) = 101 by norm_num]
    rfl
  refine ⟨hsize, ?_, ?_, ?_⟩
  · unfold phiSeries; rw [hsize]
  · unfold phiSeries; rw [hsize]; simp
  · unfold phiSeries; rw [hsize]
    rw [List.head?_eq_head (by simp)]
    simp [phiFun]

/-- Witness for C2 at the Mercury parameters. -/
theorem phiSeries_length_witness :
    tsize mercury = 101 ∧ phiSeries mercury =
      (List.range 101).map (phiFun mercury) ∧
    (phiSeries mercury).length = 101 ∧ (phiSeries mercury).head? = some 0 :=
  phiSeries_length mercury (by norm_num [ValidParams, mercury])

theorem rhs_nonneg {p : Params} (hp : ValidParams p) (y : ℝ) :
    0 ≤ rhs p y := by
  have hL : (0 : ℝ) < (p.angmom : ℝ) := by exact_mod_cast hp.2.2.1
  have hMU : (0 : ℝ) < (MU p : ℝ) := by exact_mod_cast MU_pos hp
  have hRL : (0 : ℝ) < (RL p : ℝ) := by exact_mod_cast RL_pos hp
  unfold rhs
  positivity

theorem rk4_monotone_step {p : Params} (hp : ValidParams p) (y h : ℝ)
    (hh : 0 < h) : y ≤ rk4 p y h := by
  have h1 := rhs_nonneg hp y
  have h2 := rhs_nonneg hp (y + h * rhs p y / 2)
  have h3 := rhs_nonneg hp (y + h * rhs p (y + h * rhs p y / 2) / 2)
  have h4 := rhs_nonneg hp
    (y + h * rhs p (y + h * rhs p (y + h * rhs p y / 2) / 2))
  simp only [rk4]
  nlinarith

/-- C3: for a valid bound-orbit parameter set a single RK4 step never
decreases the phase (`rk4 y h ≥ y` for every `y` and every `h > 0`), and
hence the phase series iterated from `phi_0 = 0` is monotonically
non-decreasing. -/
theorem phiSeries_monotone (p : Params) (hp : ValidParams p) :
    (∀ y h : ℝ, 0 < h → y ≤ rk4 p y h) ∧
    (∀ i j : ℕ, i ≤ j → phiFun p i ≤ phiFun p j) ∧
    (phiSeries p).Chain' (· ≤ ·) := by
  have hstep : ∀ y h : ℝ, 0 < h → y ≤ rk4 p y h := fun y h hh =>
    rk4_monotone_step hp y h hh
  have hdt := dt_pos hp
  have hmono : ∀ i j : ℕ, i ≤ j → phiFun p i ≤ phiFun p j := by
    intro i j hij
    induction j with
    | zero => simp_all
    | succ n ih =>
      rcases Nat.lt_or_ge i (n + 1) with hlt | hge
      · exact le_trans (ih (Nat.lt_succ_iff.mp hlt))
          (hstep (phiFun p n) (dt p) hdt)
      · have : i = n + 1 := le_antisymm hij hge
        subst this; rfl
  refine ⟨hstep, hmono, ?_⟩
  unfold phiSeries
  rw [List.chain'_map]
  rcases htsz : tsize p with _ | n
  · simp
  · rw [List.chain'_range_succ]
    intro m _
    exact hstep (phiFun p m) (dt p) hdt

/-- Witness for C3 at the Mercury parameters. -/
theorem phiSeries_monotone_witness :
    (∀ y h : ℝ, 0 < h → y ≤ rk4 mercury y h) ∧
    (∀ i j : ℕ, i ≤ j → phiFun mercury i ≤ phiFun mercury j) ∧
    (phiSeries mercury).Chain' (· ≤ ·) :=
  phiSeries_monotone mercury (by norm_num [ValidParams, mercury])

/-- `r = RL / (1 + ECC * numpy.cos(phi))` (Step 6 of the notebook): the
radial position reconstructed from the phase. -/
noncomputable def rFromPhi (p : Params) (phi : ℝ) : ℝ :=
  (RL p : ℝ) / (1 + (p.ecc : ℝ) * Real.cos phi)

/-- Modelled from the spec: the notebook only ever computes `r` from
`phi`; the inverse map required by the spec's round-trip property
("recomputing φ from r") is the inverse of the conic-section equation,
`phi = arccos((r_L/r - 1)/e)`. -/
noncomputable def phiFromR (p : Params) (r : ℝ) : ℝ :=
  Real.arccos (((RL p : ℝ) / r - 1) / (p.ecc : ℝ))

/-- `error = numpy.abs((energy - E)/E)` (Step 8 of the notebook), applied
pointwise to a reconstructed energy series. -/
noncomputable def energyRelErrorSeries (p : Params) (energy : List ℝ) : List ℝ :=
  energy.map (fun en => |(en - (Etot p : ℝ)) / (Etot p : ℝ)|)

/-- `Lerror = numpy.abs((angmomentum - L)/L)` (Step 9 of the notebook),
applied pointwise to a reconstructed angular-momentum series. -/
noncomputable def angmomRelErrorSeries (p : Params) (angmomentum : List ℝ) : List ℝ :=
  angmomentum.map (fun am => |(am - (p.angmom : ℝ)) / (p.angmom : ℝ)|)

theorem Etot_neg {p : Params} (hp : ValidParams p) : Etot p < 0 := by
  obtain ⟨he0, he1, hL, hG, h1, h2⟩ := hp
  have hMU := MU_pos ⟨he0, he1, hL, hG, h1, h2⟩
  have hM := M_pos ⟨he0, he1, hL, hG, h1, h2⟩
  have hpos : 0 < (MU p ^ 3 / 2) * (p.grav * M p / p.angmom) ^ 2 := by
    apply mul_pos (by positivity)
    have : 0 < p.grav * M p / p.angmom := by positivity
    positivity
  have hneg : p.ecc ^ 2 - 1 < 0 := by nlinarith
  exact mul_neg_of_pos_of_neg hpos hneg

/-- C6: the energy relative-error series computed as
`abs((energy - E)/E)` agrees pointwise with the spec formula
`|energy - E| / |E|`, and the angular-momentum relative-error series
computed as `abs((angmomentum - L)/L)` agrees pointwise with
`|angmomentum - L| / |L|`; moreover the analytic invariant `E` is indeed
negative for every valid bound orbit (`e < 1`). -/
theorem relError_eq_spec_formula (p : Params) (hp : ValidParams p)
    (energy angmomentum : List ℝ) :
    energyRelErrorSeries p energy =
      energy.map (fun en => |en - (Etot p : ℝ)| / |(Etot p : ℝ)|) ∧
    angmomRelErrorSeries p angmomentum =
      angmomentum.map (fun am => |am - (p.angmom : ℝ)| / |(p.angmom : ℝ)|) ∧
    (Etot p : ℝ) < 0 := by
  refine ⟨?_, ?_, ?_⟩
  · unfold energyRelErrorSeries
    simp only [abs_div]
  · unfold angmomRelErrorSeries
    simp only [abs_div]
  · exact_mod_cast Etot_neg hp

/-- Witness for C6 at the Mercury parameters with one-point series. -/
theorem relError_eq_spec_formula_witness :
    energyRelErrorSeries mercury [0] =
      [0].map (fun en => |en - (Etot mercury : ℝ)| / |(Etot mercury : ℝ)|) ∧
    angmomRelErrorSeries mercury [0] =
      [0].map (fun am => |am - (mercury.angmom : ℝ)| / |(mercury.angmom : ℝ)|) ∧
    (Etot mercury : ℝ) < 0 :=
  relError_eq_spec_formula mercury (by norm_num [ValidParams, mercury]) [0] [0]

/-- C7: with the reference parameters the orbital period computed by the
setup code via Kepler's third law lies within a few percent (at most 4%)
of Mercury's actual orbital period of about `7.6e6` seconds. -/
theorem period_mercury_approx :
    |period mercury - 7.6e6| ≤ 0.04 * 7.6e6 := by
  have hQ : (0 : ℚ) < 4 * semiMajor mercury ^ 3 / (mercury.grav * M mercury) := by
    norm_num [semiMajor, RL, MU, M, mercury]
  have hQpos : (0 : ℝ) <
      ((4 * semiMajor mercury ^ 3 / (mercury.grav * M mercury) : ℚ) : ℝ) := by
    exact_mod_cast hQ
  have hper : period mercury = Real.sqrt (Real.pi ^ 2 *
      ((4 * semiMajor mercury ^ 3 / (mercury.grav * M mercury) : ℚ) : ℝ)) := by
    unfold period
    congr 1
    push_cast
    ring
  have hpil : (3.141592 : ℝ) < Real.pi := Real.pi_gt_d6
  have hpiu : Real.pi < (3.141593 : ℝ) := Real.pi_lt_d6
  have hpi0 := Real.pi_pos
  have hlo : (7845000 : ℝ) ≤ period mercury := by
    rw [hper, Real.le_sqrt (by norm_num) (by positivity)]
    have h1 : ((3.141592 : ℝ)) ^ 2 *
        ((4 * semiMajor mercury ^ 3 / (mercury.grav * M mercury) : ℚ) : ℝ) ≤
        Real.pi ^ 2 *
        ((4 * semiMajor mercury ^ 3 / (mercury.grav * M mercury) : ℚ) : ℝ) := by
      apply mul_le_mul_of_nonneg_right _ hQpos.le
      nlinarith
    have h2 : ((7845000 : ℝ)) ^ 2 ≤ ((3.141592 : ℝ)) ^ 2 *
        ((4 * semiMajor mercury ^ 3 / (mercury.grav * M mercury) : ℚ) : ℝ) := by
      simp only [semiMajor, RL, MU, M, mercury]
      push_cast
      norm_num
    linarith
  have hhi : period mercury ≤ 7846000 := by
    rw [hper]
    have h1 : Real.pi ^ 2 *
        ((4 * semiMajor mercury ^ 3 / (mercury.grav * M mercury) : ℚ) : ℝ) ≤
        ((3.141593 : ℝ)) ^ 2 *
        ((4 * semiMajor mercury ^ 3 / (mercury.grav * M mercury) : ℚ) : ℝ) := by
      apply mul_le_mul_of_nonneg_right _ hQpos.le
      nlinarith
    have h2 : ((3.141593 : ℝ)) ^ 2 *
        ((4 * semiMajor mercury ^ 3 / (mercury.grav * M mercury) : ℚ) : ℝ) ≤
        ((7846000 : ℝ)) ^ 2 := by
      simp only [semiMajor, RL, MU, M, mercury]
      push_cast
      norm_num
    calc Real.sqrt (Real.pi ^ 2 *
        ((4 * semiMajor mercury ^ 3 / (mercury.grav * M mercury) : ℚ) : ℝ)) ≤
        Real.sqrt (((7846000 : ℝ)) ^ 2) := Real.sqrt_le_sqrt (by linarith)
      _ = 7846000 := Real.sqrt_sq (by norm_num)
  rw [abs_le]
  constructor <;> nlinarith

/-- C9 counterexample: the round trip `phi -> r -> phi` is not the
identity for every phase: at `phi = 2*pi` (with the Mercury parameters)
it returns 0, an error of `2*pi > 6`, far beyond any floating-point
tolerance. -/
theorem roundTrip_fails_at_two_pi :
    phiFromR mercury (rFromPhi mercury (2 * Real.pi)) = 0 ∧
    6 < |2 * Real.pi - phiFromR mercury (rFromPhi mercury (2 * Real.pi))| := by
  have hRL : (0 : ℚ) < RL mercury := by norm_num [RL, MU, M, mercury]
  have hRLr : (0 : ℝ) < (RL mercury : ℝ) := by exact_mod_cast hRL
  have hecc : (mercury.ecc : ℝ) = ((0.21 : ℚ) : ℝ) := rfl
  have harg : ((RL mercury : ℝ) / rFromPhi mercury (2 * Real.pi) - 1) /
      (mercury.ecc : ℝ) = 1 := by
    unfold rFromPhi
    rw [Real.cos_two_pi]
    rw [div_div_eq_mul_div, mul_comm ((RL mercury : ℝ)), mul_div_assoc,
      div_self hRLr.ne', mul_one]
    have he : (mercury.ecc : ℝ) ≠ 0 := by rw [hecc]; norm_num
    field_simp
  have h0 : phiFromR mercury (rFromPhi mercury (2 * Real.pi)) = 0 := by
    unfold phiFromR
    rw [harg, Real.arccos_one]
  refine ⟨h0, ?_⟩
  rw [h0, sub_zero, abs_of_pos (by positivity)]
  nlinarith [Real.pi_gt_three]

/-- C9 (amended): for a valid parameter set with `0 < e < 1`, and every
phase `phi` in the principal range `[0, pi]`, reconstructing
`r = r_L/(1 + e*cos(phi))` and recomputing the phase via
`arccos((r_L/r - 1)/e)` returns exactly the original `phi` (in exact real
arithmetic, hence within any floating-point tolerance). -/
theorem roundTrip_identity (p : Params) (hp : ValidParams p)
    (he : 0 < p.ecc) (phi : ℝ) (h0 : 0 ≤ phi) (hpi : phi ≤ Real.pi) :
    phiFromR p (rFromPhi p phi) = phi := by
  have he1 : (p.ecc : ℝ) < 1 := by exact_mod_cast hp.2.1
  have he0 : (0 : ℝ) < (p.ecc : ℝ) := by exact_mod_cast he
  have hden : (0 : ℝ) < 1 + (p.ecc : ℝ) * Real.cos phi := by
    nlinarith [Real.neg_one_le_cos phi, Real.cos_le_one phi]
  have hRL : (0 : ℝ) < (RL p : ℝ) := by exact_mod_cast RL_pos hp
  have harg : ((RL p : ℝ) / rFromPhi p phi - 1) / (p.ecc : ℝ) =
      Real.cos phi := by
    unfold rFromPhi
    rw [div_div_eq_mul_div, mul_comm ((RL p : ℝ)), mul_div_assoc,
      div_self hRL.ne', mul_one]
    field_simp
  unfold phiFromR
  rw [harg, Real.arccos_cos h0 hpi]

/-- Witness for the amended C9 at the Mercury parameters and `phi = 0`. -/
theorem roundTrip_identity_witness :
    phiFromR mercury (rFromPhi mercury 0) = 0 :=
  roundTrip_identity mercury (by norm_num [ValidParams, mercury])
    (by norm_num [mercury]) 0 le_rfl Real.pi_nonneg

/-- C1: the single-step integrator `rk4(y, h)` computes the four stage
slopes `k1 = h*F(y)`, `k2 = h*F(y + k1/2)`, `k3 = h*F(y + k2/2)`,
`k4 = h*F(y + k3)` and returns `y + (k1 + 2*k2 + 2*k3 + k4)/6`, where
`F(phi) = L*(1 + e*cos(phi))^2 / (mu * r_L^2)` with the fixed orbital
constants of the parameter set. -/
theorem rk4_stage_structure (p : Params) (y h : ℝ) (hh : 0 < h) :
    rk4 p y h =
      (fun F =>
        (fun k1 =>
          (fun k2 =>
            (fun k3 =>
              (fun k4 => y + (k1 + 2 * k2 + 2 * k3 + k4) / 6)
                (h * F (y + k3)))
              (h * F (y + k2 / 2)))
            (h * F (y + k1 / 2)))
          (h * F y))
        (fun phi =>
          (p.angmom : ℝ) * (1 + (p.ecc : ℝ) * Real.cos phi) ^ 2 /
            ((MU p : ℝ) * (RL p : ℝ) ^ 2)) := by
  simp only [rk4, rhs]
  ring

/-- Witness for C1 at `y = 0`, `h = 1` with the Mercury parameters. -/
theorem rk4_stage_structure_witness :
    rk4 mercury 0 1 =
      (fun F =>
        (fun k1 =>
          (fun k2 =>
            (fun k3 =>
              (fun k4 => (0 : ℝ) + (k1 + 2 * k2 + 2 * k3 + k4) / 6)
                (1 * F (0 + k3)))
              (1 * F (0 + k2 / 2)))
            (1 * F (0 + k1 / 2)))
          (1 * F 0))
        (fun phi =>
          (mercury.angmom : ℝ) * (1 + (mercury.ecc : ℝ) * Real.cos phi) ^ 2 /
            ((MU mercury : ℝ) * (RL mercury : ℝ) ^ 2)) :=
  rk4_stage_structure mercury 0 1 (by norm_num)

end Orbits

namespace Batse

/-!
Embedding of `read_txt_from_url` from `notebooks/gamma-ray-bursts.ipynb`.
The HTTP fetch `urllib.request.urlopen(path)` followed by `readlines()`
is modelled by passing the response body as its list of lines, and the
built-in `float` by an abstract fallible parser `parse`; a raised Python
exception is modelled as `none`.
-/

/-- Auxiliary splitter: `splitWSAux step l cur` accumulates the current
token in `cur` (reversed). -/
def splitWSAux : List Char → List Char → List (List Char)
  | [], cur => if cur = [] then [] else [cur.reverse]
  | c :: cs, cur =>
    if c.isWhitespace then
      (if cur = [] then [] else [cur.reverse]) ++ splitWSAux cs []
    else splitWSAux cs (c :: cur)

/-- Python `line.split()` (no separator argument): split on runs of
whitespace, dropping empty tokens. -/
def splitWS (line : String) : List String :=
  (splitWSAux line.data []).map String.mk

/-- Python list indexing `l[i]`: a negative index counts from the end of
the list; `none` models an `IndexError`. -/
def pyIndex {α : Type} (l : List α) (i : ℤ) : Option α :=
  if 0 ≤ i then l[i.toNat]?
  else if (-i).toNat ≤ l.length then l[l.length - (-i).toNat]?
  else none

/-- Auxiliary for the extended slice: the counter is the number of
elements still to skip before the next one is kept. -/
def everyNthAux {α : Type} (step : ℕ) : List α → ℕ → List α
  | [], _ => []
  | x :: xs, 0 => x :: everyNthAux step xs (step - 1)
  | _ :: xs, Nat.succ k => everyNthAux step xs k

/-- Python slice `l[a::step]` for a nonnegative start `a` and a positive
`step`. -/
def pySlice {α : Type} (l : List α) (a step : ℕ) : List α :=
  everyNthAux step (l.drop a) 0

/-- A fail-fast list comprehension: Python's `[f(x) for x in l]` where
`f` may raise.  The first exception aborts the whole comprehension and no
partial list is produced. -/
def mapOption {α β : Type} (f : α → Option β) : List α → Option (List β)
  | [] => some []
  | x :: xs => (f x).bind fun y => (mapOption f xs).map fun ys => y :: ys

/-- One requested column `i`:
`[float(line.split()[i-1]) for line in lines]`. -/
def readColumn (parse : String → Option ℚ) (lines : List String) (i : ℤ) :
    Option (List ℚ) :=
  mapOption (fun line => (pyIndex (splitWS line) (i - 1)).bind parse) lines

/-- `read_txt_from_url(path, columns, start, step)`:
`lines = response.readlines()[start-1::step]` followed by
`data = [numpy.array([float(line.split()[i-1]) for line in lines]) for i in columns]`. -/
def read_txt_from_url (parse : String → Option ℚ) (body : List String)
    (columns : List ℤ) (start step : ℕ) : Option (List (List ℚ)) :=
  mapOption (readColumn parse (pySlice body (start - 1) step)) columns

/-- A concrete decimal-integer instantiation of the abstract `float`
parser, used to run the model on concrete tables. -/
def parseDigits (s : String) : Option ℚ :=
  if s ≠ "" ∧ s.data.all Char.isDigit then
    some ((s.data.foldl (fun acc c => 10 * acc + (c.toNat - 48)) 0 : ℕ) : ℚ)
  else none

theorem mapOption_length {α β : Type} {f : α → Option β} :
    ∀ {l : List α} {res : List β}, mapOption f l = some res →
      res.length = l.length := by
  intro l
  induction l with
  | nil =>
    intro res h
    simp only [mapOption, Option.some.injEq] at h
    subst h; rfl
  | cons x xs ih =>
    intro res h
    simp only [mapOption] at h
    cases hfx : f x with
    | none => rw [hfx] at h; simp at h
    | some y =>
      rw [hfx] at h
      cases hxs : mapOption f xs with
      | none => rw [hxs] at h; simp at h
      | some ys =>
        rw [hxs] at h
        simp only [Option.some_bind, Option.map_some', Option.some.injEq] at h
        subst h
        simp [ih hxs]

theorem mapOption_getElem? {α β : Type} {f : α → Option β} :
    ∀ {l : List α} {res : List β}, mapOption f l = some res →
      ∀ k : ℕ, res[k]? = l[k]?.bind f := by
  intro l
  induction l with
  | nil =>
    intro res h k
    simp only [mapOption, Option.some.injEq] at h
    subst h; simp
  | cons x xs ih =>
    intro res h k
    simp only [mapOption] at h
    cases hfx : f x with
    | none => rw [hfx] at h; simp at h
    | some y =>
      rw [hfx] at h
      cases hxs : mapOption f xs with
      | none => rw [hxs] at h; simp at h
      | some ys =>
        rw [hxs] at h
        simp only [Option.some_bind, Option.map_some', Option.some.injEq] at h
        subst h
        cases k with
        | zero => simp [hfx]
        | succ k' => simp [ih hxs k']

theorem mapOption_eq_none_of_mem {α β : Type} {f : α → Option β}
    {l : List α} {x : α} (hx : x ∈ l) (hfx : f x = none) :
    mapOption f l = none := by
  induction l with
  | nil => cases hx
  | cons a as ih =>
    rcases List.mem_cons.mp hx with rfl | hmem
    · simp [mapOption, hfx]
    · simp only [mapOption, ih hmem]
      cases f a <;> simp

theorem mapOption_isSome {α β : Type} {f : α → Option β} :
    ∀ {l : List α}, (∀ x ∈ l, ∃ y, f x = some y) →
      ∃ res, mapOption f l = some res := by
  intro l
  induction l with
  | nil => intro _; exact ⟨[], rfl⟩
  | cons a as ih =>
    intro h
    obtain ⟨y, hy⟩ := h a (List.mem_cons_self a as)
    obtain ⟨res, hres⟩ := ih (fun x hx => h x (List.mem_cons_of_mem a hx))
    exact ⟨y :: res, by simp [mapOption, hy, hres]⟩

theorem everyNthAux_getElem? {α : Type} (step : ℕ) (hstep : 1 ≤ step) :
    ∀ (l : List α) (k j : ℕ), (everyNthAux step l k)[j]? = l[k + j * step]? := by
  intro l
  induction l with
  | nil => intro k j; simp [everyNthAux]
  | cons x xs ih =>
    intro k j
    cases k with
    | zero =>
      cases j with
      | zero => simp [everyNthAux]
      | succ j' =>
        simp only [everyNthAux, List.getElem?_cons_succ]
        rw [ih (step - 1) j',
          show 0 + (j' + 1) * step = (step - 1 + j' * step) + 1 by
            rw [Nat.succ_mul]; omega,
          List.getElem?_cons_succ]
    | succ k' =>
      simp only [everyNthAux]
      rw [ih k' j,
        show k' + 1 + j * step = (k' + j * step) + 1 by omega,
        List.getElem?_cons_succ]

theorem pySlice_getElem? {α : Type} (l : List α) (a step : ℕ)
    (hstep : 1 ≤ step) (k : ℕ) : (pySlice l a step)[k]? = l[a + k * step]? := by
  unfold pySlice
  rw [everyNthAux_getElem? step hstep (l.drop a) 0 k, List.getElem?_drop,
    Nat.zero_add]

/-- A synthetic in-memory table: records span five physical lines each,
with the numeric payload in column 2 of lines 4, 9 and 14 (1-indexed). -/
def sampleBody : List String :=
  ["r1 1", "r2 2", "r3 3", "r4 40", "r5 5", "r6 6", "r7 7",
   "r8 8", "r9 90", "r10 10", "r11 11", "r12 12", "r13 13", "r14 140"]

/-- C4: `read_txt_from_url` selects the lines at 0-indexed positions
`start-1, start-1+step, start-1+2*step, ...`, splits each selected line
on whitespace, parses its `(column-1)`-th token, and returns one numeric
array per requested column, all aligned by row (each returned column has
one entry per selected line, in order); in particular with `start = 4`
and `step = 5` the values come exactly from physical lines 4, 9, 14, ...
of the table. -/
theorem read_txt_characterization
    (parse : String → Option ℚ) (body : List String) (columns : List ℤ)
    (start step : ℕ) (hstart : 1 ≤ start) (hstep : 1 ≤ step)
    (data : List (List ℚ))
    (h : read_txt_from_url parse body columns start step = some data) :
    data.length = columns.length ∧
    ∀ j : ℕ, ∀ c ∈ columns[j]?, ∃ col ∈ data[j]?,
      col.length = (pySlice body (start - 1) step).length ∧
      ∀ k : ℕ, col[k]? =
        (body[start - 1 + k * step]?.bind fun line =>
          (pyIndex (splitWS line) (c - 1)).bind parse) := by
  unfold read_txt_from_url at h
  refine ⟨mapOption_length h, ?_⟩
  intro j c hc
  rw [Option.mem_def] at hc
  obtain ⟨hjlt, -⟩ := List.getElem?_eq_some_iff.mp hc
  have hdata := mapOption_getElem? h j
  rw [hc, Option.some_bind] at hdata
  have hj : j < data.length := by
    rw [mapOption_length h]; exact hjlt
  cases hcolv : readColumn parse (pySlice body (start - 1) step) c with
  | none =>
    rw [hcolv] at hdata
    rw [List.getElem?_eq_none_iff] at hdata
    omega
  | some col =>
    rw [hcolv] at hdata
    refine ⟨col, hdata, ?_, ?_⟩
    · exact mapOption_length hcolv
    · intro k
      unfold readColumn at hcolv
      rw [mapOption_getElem? hcolv k,
        pySlice_getElem? body (start - 1) step hstep k]

/-- Witness for C4: the synthetic table read at `start = 4`, `step = 5`,
column 2 returns exactly the payload of physical lines 4, 9, 14. -/
theorem read_txt_characterization_witness :
    ([[(40 : ℚ), 90, 140]] : List (List ℚ)).length = ([(2 : ℤ)] : List ℤ).length ∧
    ∀ j : ℕ, ∀ c ∈ ([(2 : ℤ)] : List ℤ)[j]?,
      ∃ col ∈ ([[(40 : ℚ), 90, 140]] : List (List ℚ))[j]?,
      col.length = (pySlice sampleBody (4 - 1) 5).length ∧
      ∀ k : ℕ, col[k]? =
        (sampleBody[4 - 1 + k * 5]?.bind fun line =>
          (pyIndex (splitWS line) (c - 1)).bind parseDigits) :=
  read_txt_characterization parseDigits sampleBody [2] 4 5 (by decide)
    (by decide) [[40, 90, 140]] (by decide)

/-- C5: a malformed selected row (missing column or unparseable token) or
an out-of-range column index makes the whole call abort: the result is
`none` — no partial output is ever produced. -/
theorem read_txt_fail_fast
    (parse : String → Option ℚ) (body : List String) (columns : List ℤ)
    (start step : ℕ) (c : ℤ) (hc : c ∈ columns)
    (line : String) (hline : line ∈ pySlice body (start - 1) step)
    (hbad : (pyIndex (splitWS line) (c - 1)).bind parse = none) :
    read_txt_from_url parse body columns start step = none := by
  unfold read_txt_from_url
  apply mapOption_eq_none_of_mem hc
  unfold readColumn
  exact mapOption_eq_none_of_mem hline hbad

/-- Witness for C5: a table whose second row has no parseable first
column aborts the whole read. -/
theorem read_txt_fail_fast_witness :
    read_txt_from_url parseDigits ["10 20", "x"] [1] 1 1 = none :=
  read_txt_fail_fast parseDigits ["10 20", "x"] [1] 1 1 1 (by decide)
    "x" (by decide) (by decide)

/-- C8: a column number `c ≤ 0` raises no error as long as each selected
line has at least `1 - c` tokens: the token index becomes negative and
Python indexing silently selects the `(1-c)`-th token counted from the
end of the line (for `c = 0`, the last token); with such a column the
whole call `read_txt_from_url` succeeds whenever the parser accepts those
tokens. -/
theorem column_zero_reads_from_end :
    (∀ (toks : List String) (c : ℤ), c ≤ 0 → 1 - (toks.length : ℤ) ≤ c →
      ∃ tok, pyIndex toks (c - 1) = some tok ∧
        toks[toks.length - (1 - c).toNat]? = some tok) ∧
    (∀ (parse : String → Option ℚ) (body : List String) (start step : ℕ)
      (c : ℤ), c ≤ 0 →
      (∀ line ∈ pySlice body (start - 1) step,
        ∃ v, (pyIndex (splitWS line) (c - 1)).bind parse = some v) →
      ∃ res, read_txt_from_url parse body [c] start step = some res) := by
  constructor
  · intro toks c hc hlen
    have hneg : ¬ (0 ≤ c - 1) := by omega
    have heq : (-(c - 1)).toNat = (1 - c).toNat := by omega
    have hidx : (-(c - 1)).toNat ≤ toks.length := by omega
    have hlt : toks.length - (1 - c).toNat < toks.length := by omega
    unfold pyIndex
    rw [if_neg hneg, if_pos hidx, heq]
    exact ⟨toks.get ⟨_, hlt⟩,
      by rw [List.getElem?_eq_getElem hlt]; simp,
      by rw [List.getElem?_eq_getElem hlt]; simp⟩
  · intro parse body start step c hc hparse
    unfold read_txt_from_url
    apply mapOption_isSome
    intro x hx
    rw [List.mem_singleton] at hx
    subst hx
    unfold readColumn
    exact mapOption_isSome hparse

/-- Witness for C8: column 0 on a two-token line selects the last token,
and a column-0 read of a one-line table succeeds. -/
theorem column_zero_reads_from_end_witness :
    (∃ tok, pyIndex ["5", "7"] ((0 : ℤ) - 1) = some tok ∧
      (["5", "7"] : List String)[(["5", "7"] : List String).length -
        ((1 : ℤ) - 0).toNat]? = some tok) ∧
    (∃ res, read_txt_from_url parseDigits ["5 7"] [0] 1 1 = some res) :=
  ⟨column_zero_reads_from_end.1 ["5", "7"] 0 (by decide) (by decide),
   column_zero_reads_from_end.2 parseDigits ["5 7"] 1 1 0 (by decide)
    (by
      intro line hline
      have hps : pySlice ["5 7"] (1 - 1) 1 = ["5 7"] := by decide
      rw [hps, List.mem_singleton] at hline
      subst hline
      exact ⟨7, by decide⟩)⟩

end Batse

namespace CondaEnv

/-!
Embedding of the environment-staging script `conda/bh-set-variables`.
The script writes `ACTIVATE.format(data=data)` and `DEACTIVATE` into the
package manager's activation/deactivation directories; the two
triple-quoted templates are represented by their lists of lines, with
the `format` substitution of the per-environment data directory applied.
-/

/-- The activation fragment written by the script, line by line, with
`{data}` already substituted by the data directory. -/
def ACTIVATE (data : String) : List String :=
  ["#!/bin/sh",
   "",
   "export GWPY_RCPARAMS=\"false\"",
   "export GWPY_USETEX=\"false\"",
   "export MATPLOTLIBRC=\"" ++ data ++ "\"",
   "export XDG_DATA_HOME=\"" ++ data ++ "\"",
   ""]

/-- The deactivation fragment written by the script, line by line. -/
def DEACTIVATE : List String :=
  ["#!/bin/sh",
   "",
   "unset GWPY_RCPARAMS",
   "unset GWPY_USETEX",
   "unset MATPLOTLIBRC",
   "unset XDG_DATA_HOME",
   ""]

/-- The (name, value) pair set by a POSIX `export NAME="VALUE"` line,
with the value stripped of its surrounding double quotes; `none` on any
other line. -/
def parseExport (line : String) : Option (String × String) :=
  if line.data.take 7 = "export ".data then
    some (String.mk ((line.data.drop 7).takeWhile (fun c => c != '=')),
      String.mk ((((line.data.drop 7).dropWhile (fun c => c != '=')).drop 2).dropLast))
  else none

/-- The variable name unset by a POSIX `unset NAME` line; `none` on any
other line. -/
def parseUnset (line : String) : Option String :=
  if line.data.take 6 = "unset ".data then
    some (String.mk (line.data.drop 6))
  else none

/-- All environment variables exported by a shell fragment, in order. -/
def exportsOf (lines : List String) : List (String × String) :=
  lines.filterMap parseExport

/-- All environment variables unset by a shell fragment, in order. -/
def unsetsOf (lines : List String) : List String :=
  lines.filterMap parseUnset

theorem parseExport_matplotlibrc (d : String) :
    parseExport ("export MATPLOTLIBRC=\"" ++ d ++ "\"") =
      some ("MATPLOTLIBRC", d) := by
  obtain ⟨cs⟩ := d
  simp only [parseExport, String.data_append]
  norm_num
  constructor
  · rfl
  · show String.mk ((cs ++ ['\"']).dropLast) = String.mk cs
    rw [List.dropLast_concat]

theorem parseExport_xdg_data_home (d : String) :
    parseExport ("export XDG_DATA_HOME=\"" ++ d ++ "\"") =
      some ("XDG_DATA_HOME", d) := by
  obtain ⟨cs⟩ := d
  simp only [parseExport, String.data_append]
  norm_num
  constructor
  · rfl
  · show String.mk ((cs ++ ['\"']).dropLast) = String.mk cs
    rw [List.dropLast_concat]

/-- C10: for every data directory, the activation fragment exports
exactly the four variables `GWPY_RCPARAMS`, `GWPY_USETEX`,
`MATPLOTLIBRC`, `XDG_DATA_HOME` (in that order), with `MATPLOTLIBRC` and
`XDG_DATA_HOME` both set to the same per-environment data directory, and
the deactivation fragment unsets exactly those same four variables and
no others. -/
theorem activate_deactivate_vars (data : String) :
    exportsOf (ACTIVATE data) =
      [("GWPY_RCPARAMS", "false"), ("GWPY_USETEX", "false"),
       ("MATPLOTLIBRC", data), ("XDG_DATA_HOME", data)] ∧
    unsetsOf DEACTIVATE =
      ["GWPY_RCPARAMS", "GWPY_USETEX", "MATPLOTLIBRC", "XDG_DATA_HOME"] := by
  constructor
  · have h1 : parseExport "#!/bin/sh" = none := by decide
    have h2 : parseExport "" = none := by decide
    have h3 : parseExport "export GWPY_RCPARAMS=\"false\"" =
        some ("GWPY_RCPARAMS", "false") := by decide
    have h4 : parseExport "export GWPY_USETEX=\"false\"" =
        some ("GWPY_USETEX", "false") := by decide
    simp [exportsOf, ACTIVATE, h1, h2, h3, h4,
      parseExport_matplotlibrc, parseExport_xdg_data_home]
  · decide

end CondaEnv
